import Mathlib

set_option linter.unusedVariables false

open scoped Classical

/-!
Verification development for the gammapy calibration-data containers:
`gammapy/spectrum/counts_spectrum.py` (class `CountsSpectrum`) and
`gammapy/irf/effective_area_table.py` (classes `TableEffectiveArea` and
`OffsetDependentTableEffectiveArea`).

The embedding models astropy unit-tagged quantities as a real value (or a
list / matrix of real values) together with a unit drawn from a fixed
enumeration of the units the code manipulates.  Each unit carries its
physical dimension and the conversion factor to the canonical unit of its
dimension (TeV for energy, degree for angle, m^2 for area, second for time).
Fallible Python code (constructors that raise, `evaluate`, arithmetic
operators) is modelled with `Except`.  Floating point arithmetic is modelled
by real arithmetic.
-/

/-- Physical dimension of a unit, as distinguished by
`gammapy.extern.validator.validate_physical_type` and by astropy unit
conversion. -/
inductive PhysDim
  | energy
  | angle
  | area
  | time
deriving DecidableEq

/-- The units appearing in the modelled code paths.  `radian`, `GeV` and
`cm2` stand in for "any non-canonical unit" of their dimension. -/
inductive Uname
  | TeV
  | GeV
  | degree
  | radian
  | m2
  | cm2
  | second
deriving DecidableEq

/-- Dimension of each unit. -/
def Uname.dim : Uname → PhysDim
  | .TeV => .energy
  | .GeV => .energy
  | .degree => .angle
  | .radian => .angle
  | .m2 => .area
  | .cm2 => .area
  | .second => .time

/-- Conversion factor to the canonical unit of the dimension
(TeV, degree, m^2, second): a value `v` in unit `u` equals
`v * u.factor` canonical units. -/
noncomputable def Uname.factor : Uname → ℝ
  | .TeV => 1
  | .GeV => 1 / 1000
  | .degree => 1
  | .radian => 180 / Real.pi
  | .m2 => 1
  | .cm2 => 1 / 10000
  | .second => 1

/-- A scalar astropy `Quantity` (an `Angle` is a `Quantity` whose unit has
the angle dimension). -/
structure Quantity where
  value : ℝ
  unit : Uname

/-- A 1-dimensional astropy `Quantity` array: one unit for all entries. -/
structure QArray where
  values : List ℝ
  unit : Uname

/-- A 2-dimensional astropy `Quantity` array. -/
structure QMatrix where
  rows : List (List ℝ)
  unit : Uname

/-- `Quantity.to(u)` for matching dimensions: rescale the value.  The
callers below only use it after the dimension has been checked. -/
noncomputable def Quantity.toU (q : Quantity) (u : Uname) : Quantity :=
  ⟨q.value * (q.unit.factor / u.factor), u⟩

/-- `Quantity.to(u)` on a 1-d array. -/
noncomputable def QArray.toU (a : QArray) (u : Uname) : QArray :=
  ⟨a.values.map (fun v => v * (a.unit.factor / u.factor)), u⟩

/-- `Quantity.to(u)` on a 2-d array. -/
noncomputable def QMatrix.toU (m : QMatrix) (u : Uname) : QMatrix :=
  ⟨m.rows.map (fun r => r.map (fun v => v * (m.unit.factor / u.factor))), u⟩

/-- The Python exceptions raised by the modelled code: `ValueError`,
astropy's `UnitConversionError`, and `NotImplementedError`. -/
inductive Err
  | valueError
  | unitsError
  | notImplementedError
deriving DecidableEq

/-! ## CountsSpectrum (`gammapy/spectrum/counts_spectrum.py`) -/

/-- A value stored in the `Bunch` metadata bag: a unit-tagged quantity or
a plain number. -/
inductive MetaVal
  | q (x : Quantity)
  | n (x : ℚ)

/-- The open key-value metadata bag (`gammapy.extern.bunch.Bunch`). -/
abbrev MetaBag := List (String × MetaVal)

/-- `dict.setdefault`: insert the key with the given value only when it is
absent. -/
def metaSetdefault (m : MetaBag) (k : String) (v : MetaVal) : MetaBag :=
  match m.lookup k with
  | some _ => m
  | none => m ++ [(k, v)]

/-- `EnergyBounds.nbins`: number of bins of a bin-edge array. -/
def QArray.nbins (a : QArray) : ℕ := a.values.length - 1

/-- `CountsSpectrum`: counts per energy bin, the energy bin edges, the
metadata bag and the 1-based channel numbers. -/
structure CountsSpectrum where
  counts : List ℚ
  energy_bounds : QArray
  meta : MetaBag
  channels : List ℕ

/-- `CountsSpectrum.__init__` (lines 43-56): reject a counts array whose
size differs from the number of energy bins, store the inputs, and apply
the metadata defaults `livetime = 0 s` and `backscal = 1`. -/
def CountsSpectrum.make (counts : List ℚ) (energy : QArray) (meta : Option MetaBag) :
    Except Err CountsSpectrum :=
  if counts.length ≠ energy.nbins then .error .valueError
  else .ok
    { counts := counts
      energy_bounds := energy
      meta := metaSetdefault
        (metaSetdefault (meta.getD []) "livetime" (.q ⟨0, .second⟩)) "backscal" (.n 1)
      channels := (List.range energy.nbins).map (fun k => k + 1) }

/-- `CountsSpectrum.__add__` (lines 64-73).  The source raises only when
`(self.energy_bounds != other.energy_bounds).all()`, i.e. only when EVERY
pair of corresponding edges differs; edge arrays of different lengths make
the elementwise comparison itself fail (numpy broadcast error), modelled by
the first guard.  Edge values are compared as physical quantities (astropy
converts before comparing); comparison of incompatible dimensions fails.
On success a new spectrum is built from the bin-wise sum of the counts and
a fresh metadata dict holding only the summed livetime. -/
noncomputable def CountsSpectrum.add (s other : CountsSpectrum) : Except Err CountsSpectrum :=
  if s.energy_bounds.values.length ≠ other.energy_bounds.values.length then .error .valueError
  else if s.energy_bounds.unit.dim ≠ other.energy_bounds.unit.dim then .error .unitsError
  else if ∀ k < s.energy_bounds.values.length,
      s.energy_bounds.values.getD k 0 * s.energy_bounds.unit.factor ≠
        other.energy_bounds.values.getD k 0 * other.energy_bounds.unit.factor then
    .error .valueError
  else
    match s.meta.lookup "livetime", other.meta.lookup "livetime" with
    | some (.q lt1), some (.q lt2) =>
        if lt1.unit.dim = lt2.unit.dim then
          CountsSpectrum.make (List.zipWith (fun a b => a + b) s.counts other.counts)
            s.energy_bounds
            (some [("livetime",
              .q ⟨lt1.value + lt2.value * (lt2.unit.factor / lt1.unit.factor), lt1.unit⟩)])
        else .error .unitsError
    | _, _ => .error .valueError

/-- `CountsSpectrum.__mul__` (lines 75-79): scale the counts, keep only the
livetime in the fresh metadata dict. -/
noncomputable def CountsSpectrum.mul (s : CountsSpectrum) (other : ℚ) :
    Except Err CountsSpectrum :=
  match s.meta.lookup "livetime" with
  | some lt =>
      CountsSpectrum.make (s.counts.map (fun c => c * other)) s.energy_bounds
        (some [("livetime", lt)])
  | none => .error .valueError

/-- An `EVENTS` extension: the per-event energies and the observation live
time, the two fields `CountsSpectrum.from_eventlist` reads. -/
structure EventList where
  energy : QArray
  observation_live_time_duration : Quantity

/-- `numpy.histogram(xs, edges)`: counts per bin; a bin is closed on the
left and open on the right, except the last bin which also contains its
right edge. -/
noncomputable def histogram (xs : List ℝ) (edges : List ℝ) : List ℕ :=
  (List.range (edges.length - 1)).map (fun k =>
    (xs.filter (fun v =>
      decide (edges.getD k 0 ≤ v) &&
        (decide (v < edges.getD (k + 1) 0) ||
          (decide (k + 2 = edges.length) && decide (v = edges.getD (k + 1) 0))))).length)

/-- `CountsSpectrum.from_eventlist` (lines 118-144): convert the event
energies to the unit of the requested bin edges, histogram them, read the
observation live time into a local `meta` dict — and then call the
constructor WITHOUT passing that dict (line 144 is `return cls(val, bins)`). -/
noncomputable def CountsSpectrum.from_eventlist (event_list : EventList) (bins : QArray) :
    Except Err CountsSpectrum :=
  if event_list.energy.unit.dim = bins.unit.dim then
    let energy := event_list.energy.toU bins.unit
    let val := histogram energy.values bins.values
    let livetime := event_list.observation_live_time_duration
    let meta : MetaBag := [("livetime", MetaVal.q livetime)]
    CountsSpectrum.make (val.map (fun n => ((n : ℕ) : ℚ))) bins none
  else .error Err.unitsError

/-! ## TableEffectiveArea (`gammapy/irf/effective_area_table.py`, lines 64-292) -/

/-- The energy-dependent effective area table: the five unit-tagged
attributes set by `TableEffectiveArea.__init__`, already canonicalized. -/
structure TableEffectiveArea where
  energy_hi : QArray
  energy_lo : QArray
  effective_area : QArray
  energy_thresh_lo : Quantity
  energy_thresh_hi : Quantity

/-- `TableEffectiveArea.__init__` (lines 97-113): validate the physical
type of every input (`validate_physical_type` raises `ValueError` on a
wrong dimension), then store everything converted to TeV / m^2. -/
noncomputable def TableEffectiveArea.make (energy_lo energy_hi effective_area : QArray)
    (energy_thresh_lo energy_thresh_hi : Quantity) : Except Err TableEffectiveArea :=
  if energy_lo.unit.dim = PhysDim.energy ∧ energy_hi.unit.dim = PhysDim.energy ∧
      effective_area.unit.dim = PhysDim.area ∧ energy_thresh_lo.unit.dim = PhysDim.energy ∧
      energy_thresh_hi.unit.dim = PhysDim.energy then
    .ok ⟨energy_hi.toU .TeV, energy_lo.toU .TeV, effective_area.toU .m2,
      energy_thresh_lo.toU .TeV, energy_thresh_hi.toU .TeV⟩
  else .error .valueError

/-- `numpy.argmin`: index of the smallest entry, first occurrence on ties;
`0` on the empty list (numpy raises there; the caller below turns the
resulting out-of-range index into an error). -/
noncomputable def argminList : List ℝ → ℕ
  | [] => 0
  | [_] => 0
  | x :: y :: t =>
      if x ≤ (y :: t).getD (argminList (y :: t)) 0 then 0 else argminList (y :: t) + 1

/-- `TableEffectiveArea.effective_area_at_energy` (lines 248-269): no
interpolation; pick the bin whose upper edge minimizes
`|energy_hi - energy|` (astropy converts the query to the unit of
`energy_hi` for the subtraction, raising on a non-energy query), and
return the stored area of that bin. -/
noncomputable def TableEffectiveArea.effective_area_at_energy (t : TableEffectiveArea)
    (energy : Quantity) : Except Err Quantity :=
  if energy.unit.dim = PhysDim.energy then
    let ev := energy.value * (energy.unit.factor / t.energy_hi.unit.factor)
    let i := argminList (t.energy_hi.values.map (fun h => |h - ev|))
    match t.effective_area.values[i]? with
    | some a => .ok ⟨a, t.effective_area.unit⟩
    | none => .error .valueError
  else .error .unitsError

/-! ## OffsetDependentTableEffectiveArea
(`gammapy/irf/effective_area_table.py`, lines 321-615) -/

/-- The state of a `scipy.interpolate.LinearNDInterpolator`: the scattered
sample points and the value attached to each point, in matching order. -/
structure LinearND where
  points : List (ℝ × ℝ)
  values : List ℝ

/-- First value whose sample point equals the query point. -/
noncomputable def lookupPoint : List ((ℝ × ℝ) × ℝ) → (ℝ × ℝ) → Option ℝ
  | [], _ => none
  | (p, v) :: rest, q => if p = q then some v else lookupPoint rest q

/-- Nearest sample point's value (ties to the earlier point), used below
only as a stand-in for the off-node interior values. -/
noncomputable def nearestPV (q : ℝ × ℝ) : List ((ℝ × ℝ) × ℝ) → ((ℝ × ℝ) × ℝ) → ℝ
  | [], best => best.2
  | pv :: rest, best =>
      nearestPV q rest (if dist pv.1 q < dist best.1 q then pv else best)

/-- Modelled from the spec: evaluation of `scipy.interpolate.LinearNDInterpolator`
(an external collaborator whose code is not part of this repository).  The
spec pins down two behaviours, which this model realizes: the barycentric
interpolant "is exact at sample points by construction", and a query
"outside the convex hull of the triangulation yields an explicit undefined
result (not a crash) ... a NaN-equivalent sentinel" — modelled as `none`.
The barycentric value at an off-node point inside the hull depends on the
Delaunay triangulation, which neither the spec nor any claim pins down; it
is modelled by the nearest sample value and is not used by any theorem in
this file. -/
noncomputable def LinearND.eval (L : LinearND) (q : ℝ × ℝ) : Option ℝ :=
  match lookupPoint (L.points.zip L.values) q with
  | some v => some v
  | none =>
      if q ∈ convexHull ℝ {p | p ∈ L.points} then
        some (nearestPV q (L.points.zip L.values) ((0, 0), 0))
      else none

/-- The state of a `scipy.interpolate.RectBivariateSpline`: the rectangular
mesh axes and the value matrix `z` with `z[i][j]` at `(x[i], y[j])`. -/
structure SplineData where
  x : List ℝ
  y : List ℝ
  z : List (List ℝ)

/-- Piecewise-linear interpolation through 1-d samples, extrapolating the
first / last segment beyond the sample range. -/
noncomputable def interp1 : List (ℝ × ℝ) → ℝ → ℝ
  | [], _ => 0
  | [(_, v)], _ => v
  | (x0, v0) :: (x1, v1) :: rest, x =>
      if x ≤ x1 ∨ rest = [] then v0 + (v1 - v0) * (x - x0) / (x1 - x0)
      else interp1 ((x1, v1) :: rest) x

/-- Modelled from the spec: pointwise evaluation of
`scipy.interpolate.RectBivariateSpline` (an external collaborator whose
code is not part of this repository): a "bivariate tensor-product spline
over the rectangular mesh" that, outside the mesh's domain, "extrapolates
(spline behavior) rather than returning undefined".  The model is the
tensor-product spline of degree 1: it is total (every query returns a
finite value, the behaviour the spec contrasts with the linear variant)
and interpolates the mesh values at the mesh nodes.  The source's default
cubic degree only changes off-node values, which no claim examines. -/
noncomputable def SplineData.eval (s : SplineData) (qx qy : ℝ) : ℝ :=
  interp1 (s.x.zip ((s.z.map (fun row => interp1 (s.y.zip row) qy)))) qx

/-- `RectBivariateSpline.__call__(xs, ys)` with the default `grid=True`:
evaluate on the CROSS PRODUCT of the two coordinate arrays, producing a
matrix of shape `(len xs, len ys)` — not pointwise over pairs. -/
noncomputable def SplineData.evalGrid (s : SplineData) (xs ys : List ℝ) :
    List (List (Option ℝ)) :=
  xs.map (fun qx => ys.map (fun qy => some (s.eval qx qy)))

/-- A scalar-or-vector query value (numpy scalar/array). -/
inductive QueryVal
  | scalar (v : ℝ)
  | vector (vs : List ℝ)

/-- Apply a function to every entry of a query value. -/
noncomputable def QueryVal.map (f : ℝ → ℝ) : QueryVal → QueryVal
  | .scalar v => .scalar (f v)
  | .vector vs => .vector (vs.map f)

/-- View a query value as a coordinate array (numpy `atleast_1d`). -/
def QueryVal.toList : QueryVal → List ℝ
  | .scalar v => [v]
  | .vector vs => vs

/-- A scalar-or-vector unit-tagged argument (`Quantity` / `Angle`,
scalar or array). -/
structure QInput where
  val : QueryVal
  unit : Uname

/-- The shape of an evaluation result: numpy 0-d, 1-d or 2-d array of
values, `none` standing for NaN. -/
inductive EvalResult
  | scalar (v : Option ℝ)
  | vector (vs : List (Option ℝ))
  | matrix (rows : List (List (Option ℝ)))

/-- A result re-tagged with a unit (`Quantity(val, self.eff_area.unit)`). -/
structure QResult where
  res : EvalResult
  unit : Uname

/-- Pointwise (numpy-broadcast) application of the linear interpolator to
the two coordinate arguments; two vectors of different lengths fail to
broadcast. -/
noncomputable def linearBroadcast (L : LinearND) : QueryVal → QueryVal → Except Err EvalResult
  | .scalar a, .scalar b => .ok (.scalar (L.eval (a, b)))
  | .scalar a, .vector bs => .ok (.vector (bs.map (fun b => L.eval (a, b))))
  | .vector vs, .scalar b => .ok (.vector (vs.map (fun a => L.eval (a, b))))
  | .vector vs, .vector bs =>
      if vs.length = bs.length then
        .ok (.vector (List.zipWith (fun a b => L.eval (a, b)) vs bs))
      else .error .valueError

/-- `numpy.ndarray.squeeze()` on a 2-d array of shape
`(len xs, len ys)`: drop the axes of length 1. -/
def squeeze : List (List (Option ℝ)) → EvalResult
  | [row] =>
      match row with
      | [v] => .scalar v
      | _ => .vector row
  | rows =>
      if rows.all (fun r => r.length = 1) then .vector (rows.map (fun r => r.head?.join))
      else .matrix rows

/-- The offset-dependent effective area table: the six canonicalized
attributes, the two derived bin-center arrays (computed by `__init__` from
the RAW constructor arguments, hence carrying the INPUT units), the two
eagerly built interpolators and the mutable method selector. -/
structure OffsetDependentTableEffectiveArea where
  energ_lo : QArray
  energ_hi : QArray
  offset_lo : QArray
  offset_hi : QArray
  eff_area : QMatrix
  eff_area_reco : QMatrix
  offset : QArray
  energy : QArray
  linear : LinearND
  spline : SplineData
  interpolation_method : String

/-- Cross-product coordinate list of `_prepare_linear_interpolator`
(line 572): `[(xx, yy) for xx in x for yy in y]` — offset-major,
energy-minor. -/
def coordGrid (x y : List ℝ) : List (ℝ × ℝ) :=
  x.flatMap (fun xx => y.map (fun yy => (xx, yy)))

/-- `_prepare_linear_interpolator` (lines 565-574): scatter points are the
cross product of the offset centers with the log10 energy centers, and the
attached values are the row-major (offset-major) flattening of the area
matrix. -/
noncomputable def prepare_linear_interpolator (offset energy : QArray) (eff_area : QMatrix) :
    LinearND :=
  ⟨coordGrid offset.values (energy.values.map (fun v => Real.logb 10 v)),
    eff_area.rows.flatten⟩

/-- `_prepare_spline_interpolator` (lines 577-585): rectangular mesh of the
offset centers against the log10 energy centers. -/
noncomputable def prepare_spline_interpolator (offset energy : QArray) (eff_area : QMatrix) :
    SplineData :=
  ⟨offset.values, energy.values.map (fun v => Real.logb 10 v), eff_area.rows⟩

/-- `OffsetDependentTableEffectiveArea.__init__` (lines 361-382).  The
guards collect the `isinstance` checks (offsets must be `Angle`s, i.e.
angle-dimensioned) and the unit conversions of lines 369-374 (which raise
for a wrong dimension).  The six attributes are stored canonicalized; the
two bin-center arrays are computed from the RAW arguments (lines 376-377),
so they keep the input units: the offset center takes the unit of
`offset_hi` (astropy addition converts the second operand to the first
operand's unit), the energy center the unit of `energ_lo`.  The model
requires the two energy-edge arrays to share one unit (astropy would track
the composite unit `sqrt(u_lo*u_hi)` of `np.sqrt(energ_lo*energ_hi)`,
which lies outside the unit enumeration used here; every claim uses a
single energy unit).  Both interpolators are built eagerly from the
converted area matrix, and the selector starts at `"linear"`. -/
noncomputable def OffsetDependentTableEffectiveArea.make
    (energ_lo energ_hi offset_lo offset_hi : QArray) (eff_area eff_area_reco : QMatrix) :
    Except Err OffsetDependentTableEffectiveArea :=
  if offset_lo.unit.dim = PhysDim.angle ∧ offset_hi.unit.dim = PhysDim.angle then
    if energ_lo.unit.dim = PhysDim.energy ∧ energ_hi.unit.dim = PhysDim.energy ∧
        eff_area.unit.dim = PhysDim.area ∧ eff_area_reco.unit.dim = PhysDim.area then
      if energ_lo.unit = energ_hi.unit then
        let offset : QArray :=
          ⟨List.zipWith (fun h l => (h + l) / 2) offset_hi.values
            ((offset_lo.toU offset_hi.unit).values), offset_hi.unit⟩
        let energy : QArray :=
          ⟨List.zipWith (fun l h => Real.sqrt (l * h)) energ_lo.values energ_hi.values,
            energ_lo.unit⟩
        .ok
          { energ_lo := energ_lo.toU .TeV
            energ_hi := energ_hi.toU .TeV
            offset_lo := offset_lo.toU .degree
            offset_hi := offset_hi.toU .degree
            eff_area := eff_area.toU .m2
            eff_area_reco := eff_area_reco.toU .m2
            offset := offset
            energy := energy
            linear := prepare_linear_interpolator offset energy (eff_area.toU .m2)
            spline := prepare_spline_interpolator offset energy (eff_area.toU .m2)
            interpolation_method := "linear" }
      else .error .unitsError
    else .error .unitsError
  else .error .valueError

/-- `OffsetDependentTableEffectiveArea.evaluate` (lines 434-467): check the
argument types (the offset must be an `Angle`), convert the offset to
degree and the energy to TeV (the conversion raises for a non-energy
query), take log10 of the energy coordinate, dispatch on the stored method
selector — pointwise for the linear interpolator, grid-then-squeeze for
the spline — and re-tag the result with the unit of the stored area
matrix.  An unrecognized selector value raises `NotImplementedError`. -/
noncomputable def OffsetDependentTableEffectiveArea.evaluate
    (t : OffsetDependentTableEffectiveArea) (offset energy : QInput) :
    Except Err QResult :=
  if offset.unit.dim = PhysDim.angle then
    if energy.unit.dim = PhysDim.energy then
      let ov := offset.val.map (fun v => v * (offset.unit.factor / Uname.degree.factor))
      let ev := (energy.val.map (fun v => v * (energy.unit.factor / Uname.TeV.factor))).map
        (fun v => Real.logb 10 v)
      if t.interpolation_method = "linear" then
        match linearBroadcast t.linear ov ev with
        | .ok r => .ok ⟨r, t.eff_area.unit⟩
        | .error e => .error e
      else if t.interpolation_method = "spline" then
        .ok ⟨squeeze (t.spline.evalGrid ov.toList ev.toList), t.eff_area.unit⟩
      else .error .notImplementedError
    else .error .unitsError
  else .error .valueError

/-- `set_interpolation_method` (lines 551-562): the check precedes the
assignment, so an unrecognized name raises `NotImplementedError` before
any state changes; a recognized name only replaces the selector. -/
def OffsetDependentTableEffectiveArea.set_interpolation_method
    (t : OffsetDependentTableEffectiveArea) (method : String) :
    Except Err OffsetDependentTableEffectiveArea :=
  if method = "linear" ∨ method = "spline" then
    .ok { t with interpolation_method := method }
  else .error .notImplementedError

/-! ## List-indexing lemmas for the cross-product / flattening order -/

/-- Entry `k` of the cross-product coordinate list: offset-major,
energy-minor. -/
theorem coordGrid_getElem (x y : List ℝ) (k : ℕ) (hk : k < x.length * y.length) :
    (coordGrid x y)[k]? = some (x.getD (k / y.length) 0, y.getD (k % y.length) 0) := by
  induction x generalizing k with
  | nil => simp at hk
  | cons a x ih =>
    have hy : 0 < y.length := by
      rcases Nat.eq_zero_or_pos y.length with h | h
      · rw [h, Nat.mul_zero] at hk; exact absurd hk (Nat.not_lt_zero k)
      · exact h
    have hsplit : coordGrid (a :: x) y = (y.map (fun yy => (a, yy))) ++ coordGrid x y := by
      simp [coordGrid]
    rcases lt_or_ge k y.length with hlt | hge
    · rw [hsplit, List.getElem?_append_left (by simpa using hlt), List.getElem?_map,
        Nat.div_eq_of_lt hlt, Nat.mod_eq_of_lt hlt, List.getElem?_eq_getElem hlt]
      simp [List.getD_eq_getElem?_getD, List.getElem?_eq_getElem hlt]
    · have hk' : k - y.length < x.length * y.length := by
        have : k < y.length + x.length * y.length := by
          simpa [Nat.succ_mul, Nat.add_comm] using hk
        omega
      have hdiv : k / y.length = (k - y.length) / y.length + 1 := by
        rcases Nat.exists_eq_add_of_le hge with ⟨m, hm⟩
        subst hm
        rw [Nat.add_sub_cancel_left, Nat.add_comm, Nat.add_div_right _ hy]
      have hmod : k % y.length = (k - y.length) % y.length := by
        rcases Nat.exists_eq_add_of_le hge with ⟨m, hm⟩
        subst hm
        rw [Nat.add_sub_cancel_left, Nat.add_comm, Nat.add_mod_right]
      rw [hsplit, List.getElem?_append_right (by simpa using hge)]
      rw [List.length_map, hdiv, hmod]
      rw [show (coordGrid x y)[k - y.length]? =
        some (x.getD ((k - y.length) / y.length) 0, y.getD ((k - y.length) % y.length) 0)
        from ih _ hk']
      simp

/-- Entry `k` of the row-major flattening of a matrix with uniform row
length `L`. -/
theorem flatten_getElem (m : List (List ℝ)) (L k : ℕ) (hL : ∀ r ∈ m, r.length = L)
    (hk : k < m.length * L) :
    m.flatten[k]? = some ((m.getD (k / L) []).getD (k % L) 0) := by
  induction m generalizing k with
  | nil => simp at hk
  | cons r m ih =>
    have hr : r.length = L := hL r (List.mem_cons_self r m)
    have hpos : 0 < L := by
      rcases Nat.eq_zero_or_pos L with h | h
      · rw [h, Nat.mul_zero] at hk; exact absurd hk (Nat.not_lt_zero k)
      · exact h
    rcases lt_or_ge k L with hlt | hge
    · rw [List.flatten_cons, List.getElem?_append_left (by rw [hr]; exact hlt),
        Nat.div_eq_of_lt hlt, Nat.mod_eq_of_lt hlt]
      have : k < r.length := by rw [hr]; exact hlt
      simp [List.getElem?_eq_getElem this, List.getD_eq_getElem?_getD]
    · have hk' : k - L < m.length * L := by
        have : k < L + m.length * L := by
          simpa [Nat.succ_mul, Nat.add_comm] using hk
        omega
      have hdiv : k / L = (k - L) / L + 1 := by
        rcases Nat.exists_eq_add_of_le hge with ⟨j, hj⟩
        subst hj
        rw [Nat.add_sub_cancel_left, Nat.add_comm, Nat.add_div_right _ hpos]
      have hmod : k % L = (k - L) % L := by
        rcases Nat.exists_eq_add_of_le hge with ⟨j, hj⟩
        subst hj
        rw [Nat.add_sub_cancel_left, Nat.add_comm, Nat.add_mod_right]
      rw [List.flatten_cons, List.getElem?_append_right (by rw [hr]; exact hge), hr, hdiv, hmod]
      rw [ih _ (fun s hs => hL s (List.mem_cons_of_mem _ hs)) hk']
      simp

/-- `lookupPoint` on zipped points/values returns the value at the first
index whose point equals the query. -/
theorem lookupPoint_zip (ps : List (ℝ × ℝ)) (vs : List ℝ) (q : ℝ × ℝ) (n : ℕ)
    (hlen : ps.length = vs.length) (hn : ps[n]? = some q)
    (hne : ∀ m, m < n → ps[m]? ≠ some q) :
    lookupPoint (ps.zip vs) q = vs[n]? := by
  induction ps generalizing vs n with
  | nil => simp at hn
  | cons p ps ih =>
    cases vs with
    | nil => simp at hlen
    | cons v vs =>
      cases n with
      | zero =>
        simp only [List.getElem?_cons_zero, Option.some.injEq] at hn
        subst hn
        simp [lookupPoint]
      | succ n =>
        have hp : p ≠ q := by
          intro h
          exact hne 0 (Nat.succ_pos n) (by simp [h])
        simp only [List.getElem?_cons_succ] at hn
        rw [show (p :: ps).zip (v :: vs) = (p, v) :: ps.zip vs from rfl, lookupPoint,
          if_neg hp]
        rw [ih vs n (by simpa using hlen) hn
          (fun m hm => by
            have := hne (m + 1) (Nat.succ_lt_succ hm)
            simpa using this)]
        simp

/-- `argminList` stays in range on a nonempty list. -/
theorem argminList_lt (xs : List ℝ) (h : xs ≠ []) : argminList xs < xs.length := by
  induction xs with
  | nil => exact absurd rfl h
  | cons x xs ih =>
    cases xs with
    | nil => simp [argminList]
    | cons y t =>
      rw [argminList]
      split
      · simp
      · have := ih (by simp)
        simpa [Nat.succ_lt_succ_iff] using this

/-- The entry at `argminList` is minimal. -/
theorem argminList_le (xs : List ℝ) (k : ℕ) (hk : k < xs.length) :
    xs.getD (argminList xs) 0 ≤ xs.getD k 0 := by
  induction xs generalizing k with
  | nil => simp at hk
  | cons x xs ih =>
    cases xs with
    | nil =>
      have hk0 : k = 0 := by
        have : k < 1 := by simpa using hk
        omega
      subst hk0
      simp [argminList]
    | cons y t =>
      rw [argminList]
      by_cases h : x ≤ (y :: t).getD (argminList (y :: t)) 0
      · rw [if_pos h]
        cases k with
        | zero => simp
        | succ k =>
          simp only [List.getD_cons_zero, List.getD_cons_succ]
          exact le_trans h (ih k (by simpa [Nat.succ_lt_succ_iff] using hk))
      · rw [if_neg h]
        cases k with
        | zero =>
          simp only [List.getD_cons_succ, List.getD_cons_zero]
          exact (not_le.mp h).le
        | succ k =>
          simp only [List.getD_cons_succ]
          exact ih k (by simpa [Nat.succ_lt_succ_iff] using hk)

/-- `getD` through `map`, inside the range. -/
theorem getD_map_lt (f : ℝ → ℝ) (l : List ℝ) (k : ℕ) (hk : k < l.length) :
    (l.map f).getD k 0 = f (l.getD k 0) := by
  rw [List.getD_eq_getElem?_getD, List.getD_eq_getElem?_getD, List.getElem?_map,
    List.getElem?_eq_getElem hk]
  simp

/-- Inversion of `CountsSpectrum.make`: the metadata of any
constructor-produced spectrum. -/
theorem make_ok_meta (counts : List ℚ) (energy : QArray) (mb : Option MetaBag)
    (t : CountsSpectrum) (h : CountsSpectrum.make counts energy mb = .ok t) :
    t.meta = metaSetdefault (metaSetdefault (mb.getD []) "livetime" (.q ⟨0, .second⟩))
      "backscal" (.n 1) := by
  rw [CountsSpectrum.make] at h
  split at h
  · exact absurd h (by simp)
  · simp only [Except.ok.injEq] at h
    subst h
    rfl

/-- `__add__` whenever at least one pair of corresponding edges agrees (so
the `.all()` guard of line 69 does not fire): the call reduces to the
constructor call of line 73. -/
theorem add_reaches_make (s o : CountsSpectrum)
    (hlen : s.energy_bounds.values.length = o.energy_bounds.values.length)
    (hdimb : s.energy_bounds.unit.dim = o.energy_bounds.unit.dim)
    (k0 : ℕ) (hk0 : k0 < s.energy_bounds.values.length)
    (heq : s.energy_bounds.values.getD k0 0 * s.energy_bounds.unit.factor =
      o.energy_bounds.values.getD k0 0 * o.energy_bounds.unit.factor)
    (lt1 lt2 : Quantity)
    (h1 : s.meta.lookup "livetime" = some (.q lt1))
    (h2 : o.meta.lookup "livetime" = some (.q lt2))
    (hdim : lt1.unit.dim = lt2.unit.dim) :
    s.add o = CountsSpectrum.make (List.zipWith (fun a b => a + b) s.counts o.counts)
      s.energy_bounds
      (some [("livetime",
        .q ⟨lt1.value + lt2.value * (lt2.unit.factor / lt1.unit.factor), lt1.unit⟩)]) := by
  have hall : ¬ (∀ k < s.energy_bounds.values.length,
      s.energy_bounds.values.getD k 0 * s.energy_bounds.unit.factor ≠
        o.energy_bounds.values.getD k 0 * o.energy_bounds.unit.factor) := by
    intro hall
    exact hall k0 hk0 heq
  rw [CountsSpectrum.add, if_neg (fun h => h hlen), if_neg (fun h => h hdimb),
    if_neg hall, h1, h2]
  simp [hdim]

/-! ## Concrete data for the CountsSpectrum scenarios -/

/-- `EnergyBounds.equal_log_spacing(1, 10, 10, 'TeV')`: eleven log-spaced
edges from 1 to 10 TeV. -/
noncomputable def ebounds110 : QArray :=
  ⟨(List.range 11).map (fun k => (10 : ℝ) ^ ((k : ℝ) / 10)), .TeV⟩

/-- The spectrum built from counts `[6,3,8,4,9,5,9,5,5,1]` on `ebounds110`
with a 100 s livetime. -/
noncomputable def specA : CountsSpectrum :=
  ⟨[6, 3, 8, 4, 9, 5, 9, 5, 5, 1], ebounds110,
    [("livetime", .q ⟨100, .second⟩), ("backscal", .n 1)],
    [1, 2, 3, 4, 5, 6, 7, 8, 9, 10]⟩

/-- The spectrum built from counts `[1,1,1,1,1,1,1,1,1,1]` on `ebounds110`
with a 20 s livetime. -/
noncomputable def specB : CountsSpectrum :=
  ⟨[1, 1, 1, 1, 1, 1, 1, 1, 1, 1], ebounds110,
    [("livetime", .q ⟨20, .second⟩), ("backscal", .n 1)],
    [1, 2, 3, 4, 5, 6, 7, 8, 9, 10]⟩

/-- A 2-bin spectrum on edges `[1,2,4]` TeV. -/
def specC : CountsSpectrum :=
  ⟨[1, 1], ⟨[1, 2, 4], .TeV⟩,
    [("livetime", .q ⟨0, .second⟩), ("backscal", .n 1)], [1, 2]⟩

/-- A 2-bin spectrum on the DIFFERENT edges `[1,2,8]` TeV (the first two
edges agree with `specC`, the last differs). -/
def specD : CountsSpectrum :=
  ⟨[2, 2], ⟨[1, 2, 8], .TeV⟩,
    [("livetime", .q ⟨0, .second⟩), ("backscal", .n 1)], [1, 2]⟩

/-- C3: adding two spectra with identical 10-bin log-spaced binning sums the
counts bin-wise and the livetimes (claim's positive half) — but adding two
spectra with MISMATCHED binning does NOT fail: because `__add__` raises only
when `(self.energy_bounds != other.energy_bounds).all()`, two different
binnings that agree on at least one edge (here `[1,2,4]` vs `[1,2,8]` TeV)
slip through the check and their counts are silently summed, contradicting
the claim's error half, the method's own docstring ("The two spectra need
to have the same binning") and its error message. -/
theorem c3_add_binning_check :
    (CountsSpectrum.make [6, 3, 8, 4, 9, 5, 9, 5, 5, 1] ebounds110
        (some [("livetime", MetaVal.q ⟨100, .second⟩)]) = .ok specA) ∧
    (CountsSpectrum.make [1, 1, 1, 1, 1, 1, 1, 1, 1, 1] ebounds110
        (some [("livetime", MetaVal.q ⟨20, .second⟩)]) = .ok specB) ∧
    (∃ t, specA.add specB = .ok t ∧ t.counts = [7, 4, 9, 5, 10, 6, 10, 6, 6, 2] ∧
      t.meta.lookup "livetime" = some (.q ⟨120, .second⟩)) ∧
    (CountsSpectrum.make [1, 1] ⟨[1, 2, 4], .TeV⟩ none = .ok specC) ∧
    (CountsSpectrum.make [2, 2] ⟨[1, 2, 8], .TeV⟩ none = .ok specD) ∧
    (∃ t, specC.add specD = .ok t ∧ t.counts = [3, 3]) := by
  refine ⟨rfl, rfl, ?_, rfl, rfl, ?_⟩
  · have hv : (100 : ℝ) + 20 * (Uname.second.factor / Uname.second.factor) = 120 := by
      norm_num [Uname.factor]
    have hadd := add_reaches_make specA specB rfl rfl 0
      (by show (0 : ℕ) < 11; norm_num)
      rfl ⟨100, .second⟩ ⟨20, .second⟩ rfl rfl rfl
    rw [hadd]
    refine ⟨_, rfl, by norm_num [specA, specB], ?_⟩
    exact (show _ = some (MetaVal.q ⟨100 + 20 * (Uname.second.factor / Uname.second.factor),
      Uname.second⟩) from rfl).trans (by rw [hv])
  · have hadd := add_reaches_make specC specD rfl rfl 0 (by norm_num [specC])
      rfl ⟨0, .second⟩ ⟨0, .second⟩ rfl rfl rfl
    rw [hadd]
    exact ⟨_, rfl, by norm_num [specC, specD]⟩

/-- C9: `from_eventlist` reads the observation live time into a local
metadata dict but never passes that dict to the constructor, so the
returned spectrum's metadata is exactly the constructor defaults —
`livetime = 0 s` (and `backscal = 1`) — whatever the event list's live
time was. -/
theorem c9_from_eventlist_default_livetime (ev : EventList) (bins : QArray)
    (hdim : ev.energy.unit.dim = bins.unit.dim) :
    ∃ s, CountsSpectrum.from_eventlist ev bins = .ok s ∧
      s.meta = [("livetime", MetaVal.q ⟨0, .second⟩), ("backscal", MetaVal.n 1)] ∧
      s.meta.lookup "livetime" = some (MetaVal.q ⟨0, .second⟩) := by
  have hlen : ((histogram (ev.energy.toU bins.unit).values bins.values).map
      (fun n => ((n : ℕ) : ℚ))).length = bins.nbins := by
    rw [List.length_map, histogram, List.length_map, List.length_range]
    rfl
  rw [CountsSpectrum.from_eventlist, if_pos hdim]
  rw [CountsSpectrum.make, if_neg (fun h => h hlen)]
  exact ⟨_, rfl, rfl, rfl⟩

/-- A concrete event list: no events, 1800 s of live time. -/
noncomputable def evSample : EventList := ⟨⟨[], .TeV⟩, ⟨1800, .second⟩⟩

/-- Witness for C9 at a concrete event list with a nonzero live time. -/
theorem c9_from_eventlist_default_livetime_witness :
    ∃ s, CountsSpectrum.from_eventlist evSample ⟨[1, 10], Uname.TeV⟩ = .ok s ∧
      s.meta = [("livetime", MetaVal.q ⟨0, .second⟩), ("backscal", MetaVal.n 1)] ∧
      s.meta.lookup "livetime" = some (MetaVal.q ⟨0, .second⟩) :=
  c9_from_eventlist_default_livetime evSample ⟨[1, 10], Uname.TeV⟩ rfl

/-- C10: both `__add__` and `__mul__` hand the constructor a fresh metadata
dict holding only a livetime, so the result's metadata is exactly that
livetime plus the re-applied default `backscal = 1`: every other key of the
operands' metadata (obs_id, offset, zenith, ...) is dropped, and for
multiplication the livetime is the operand's own. -/
theorem c10_arithmetic_resets_metadata (s o t u : CountsSpectrum) (c : ℚ) :
    (s.add o = .ok t →
      ∃ lt, t.meta = [("livetime", MetaVal.q lt), ("backscal", MetaVal.n 1)]) ∧
    (s.mul c = .ok u →
      ∃ mv, s.meta.lookup "livetime" = some mv ∧
        u.meta = [("livetime", mv), ("backscal", MetaVal.n 1)]) := by
  constructor
  · intro h
    rw [CountsSpectrum.add] at h
    split at h
    · exact absurd h (by simp)
    split at h
    · exact absurd h (by simp)
    split at h
    · exact absurd h (by simp)
    split at h
    case _ lt1 lt2 _ _ =>
      split at h
      · exact ⟨⟨lt1.value + lt2.value * (lt2.unit.factor / lt1.unit.factor), lt1.unit⟩,
          (make_ok_meta _ _ _ _ h).trans rfl⟩
      · exact absurd h (by simp)
    case _ => exact absurd h (by simp)
  · intro h
    rw [CountsSpectrum.mul] at h
    split at h
    case _ mv hmv =>
      exact ⟨mv, hmv, (make_ok_meta _ _ _ _ h).trans rfl⟩
    case _ => exact absurd h (by simp)

/-- A spectrum carrying metadata beyond the defaults (an `obs_id` and a
non-default `backscal`). -/
noncomputable def specMetaRich : CountsSpectrum :=
  ⟨[3], ⟨[1, 2], .TeV⟩,
    [("livetime", .q ⟨5, .second⟩), ("obs_id", .n 42), ("backscal", .n 7)], [1]⟩

/-- Witness for C10: adding / scaling a spectrum with extra metadata and a
non-default `backscal` drops `obs_id` and resets `backscal` to 1. -/
theorem c10_arithmetic_resets_metadata_witness :
    (∃ t, specMetaRich.add specMetaRich = .ok t ∧
      ∃ lt, t.meta = [("livetime", MetaVal.q lt), ("backscal", MetaVal.n 1)]) ∧
    (∃ u, specMetaRich.mul 2 = .ok u ∧
      ∃ mv, specMetaRich.meta.lookup "livetime" = some mv ∧
        u.meta = [("livetime", mv), ("backscal", MetaVal.n 1)]) := by
  have hadd : specMetaRich.add specMetaRich =
      CountsSpectrum.make (List.zipWith (fun a b => a + b) specMetaRich.counts
        specMetaRich.counts) specMetaRich.energy_bounds
        (some [("livetime", .q ⟨(5 : ℝ) + 5 * (Uname.second.factor / Uname.second.factor),
          Uname.second⟩)]) :=
    add_reaches_make specMetaRich specMetaRich rfl rfl 0 (by show (0 : ℕ) < 2; norm_num)
      rfl ⟨5, .second⟩ ⟨5, .second⟩ rfl rfl rfl
  constructor
  · refine ⟨_, hadd.trans rfl, ?_⟩
    exact (c10_arithmetic_resets_metadata specMetaRich specMetaRich _ specMetaRich 2).1
      (hadd.trans rfl)
  · refine ⟨_, rfl, ?_⟩
    exact (c10_arithmetic_resets_metadata specMetaRich specMetaRich specMetaRich _ 2).2 rfl

/-- C7: `set_interpolation_method` with a recognized name changes only the
active-method selector (the record update leaves the grids, the area
matrices and both interpolators exactly as they were — nothing is rebuilt),
while any other name fails with `NotImplementedError` before anything,
selector included, changes. -/
theorem c7_set_interpolation_method_frame (t : OffsetDependentTableEffectiveArea)
    (method : String) :
    (method = "linear" ∨ method = "spline" →
      t.set_interpolation_method method =
        .ok { t with interpolation_method := method }) ∧
    (method ≠ "linear" → method ≠ "spline" →
      t.set_interpolation_method method = .error .notImplementedError) := by
  constructor
  · intro h
    rw [OffsetDependentTableEffectiveArea.set_interpolation_method, if_pos h]
  · intro h1 h2
    rw [OffsetDependentTableEffectiveArea.set_interpolation_method,
      if_neg (by simp [h1, h2])]

/-- A table literal used to instantiate the frame theorem. -/
def trivialTable : OffsetDependentTableEffectiveArea :=
  ⟨⟨[], .TeV⟩, ⟨[], .TeV⟩, ⟨[], .degree⟩, ⟨[], .degree⟩, ⟨[], .m2⟩, ⟨[], .m2⟩,
    ⟨[], .degree⟩, ⟨[], .TeV⟩, ⟨[], []⟩, ⟨[], [], []⟩, "linear"⟩

/-- Witness for C7 at a concrete table: `"spline"` switches the selector,
`"cubic"` is rejected. -/
theorem c7_set_interpolation_method_frame_witness :
    trivialTable.set_interpolation_method "spline" =
      .ok { trivialTable with interpolation_method := "spline" } ∧
    trivialTable.set_interpolation_method "cubic" = .error .notImplementedError :=
  ⟨(c7_set_interpolation_method_frame trivialTable "spline").1 (Or.inr rfl),
    (c7_set_interpolation_method_frame trivialTable "cubic").2 (by decide) (by decide)⟩

/-- C8: `effective_area_at_energy` uses no interpolation: it returns the
stored area of the bin whose upper edge minimizes the distance to the
query energy (nearest-neighbor on the upper edge, first bin on ties). -/
theorem c8_nearest_upper_edge (t : TableEffectiveArea) (energy : Quantity)
    (hdim : energy.unit.dim = PhysDim.energy)
    (hne : t.energy_hi.values ≠ [])
    (hlen : t.effective_area.values.length = t.energy_hi.values.length) :
    ∃ i, i < t.energy_hi.values.length ∧
      t.effective_area_at_energy energy =
        .ok ⟨t.effective_area.values.getD i 0, t.effective_area.unit⟩ ∧
      ∀ j < t.energy_hi.values.length,
        |t.energy_hi.values.getD i 0 -
            energy.value * (energy.unit.factor / t.energy_hi.unit.factor)| ≤
          |t.energy_hi.values.getD j 0 -
            energy.value * (energy.unit.factor / t.energy_hi.unit.factor)| := by
  have hmapne : t.energy_hi.values.map
      (fun h => |h - energy.value * (energy.unit.factor / t.energy_hi.unit.factor)|) ≠ [] := by
    intro h
    exact hne (List.map_eq_nil_iff.mp h)
  have hlt : argminList (t.energy_hi.values.map
      (fun h => |h - energy.value * (energy.unit.factor / t.energy_hi.unit.factor)|)) <
      t.energy_hi.values.length := by
    have := argminList_lt _ hmapne
    rwa [List.length_map] at this
  refine ⟨_, hlt, ?_, ?_⟩
  · rw [TableEffectiveArea.effective_area_at_energy, if_pos hdim]
    have hget : t.effective_area.values[argminList (t.energy_hi.values.map
        (fun h => |h - energy.value * (energy.unit.factor / t.energy_hi.unit.factor)|))]? =
        some (t.effective_area.values.getD (argminList (t.energy_hi.values.map
          (fun h => |h - energy.value * (energy.unit.factor / t.energy_hi.unit.factor)|))) 0) := by
      rw [List.getElem?_eq_getElem (by rw [hlen]; exact hlt)]
      rw [List.getD_eq_getElem?_getD, List.getElem?_eq_getElem (by rw [hlen]; exact hlt)]
      rfl
    simp only [hget]
  · intro j hj
    have h1 := argminList_le (t.energy_hi.values.map
      (fun h => |h - energy.value * (energy.unit.factor / t.energy_hi.unit.factor)|)) j
      (by rw [List.length_map]; exact hj)
    rwa [getD_map_lt _ _ _ hlt, getD_map_lt _ _ _ hj] at h1

/-- The simple scenario table: bins `(1,2)` and `(2,4)` TeV with areas
`10` and `20` m^2. -/
noncomputable def tableC8 : TableEffectiveArea :=
  ⟨⟨[2, 4], .TeV⟩, ⟨[1, 2], .TeV⟩, ⟨[10, 20], .m2⟩, ⟨1 / 10, .TeV⟩, ⟨100, .TeV⟩⟩

/-- Witness for C8: querying the scenario table at 1.9 TeV returns
10 m^2 (the nearest upper edge is 2 TeV, bin 0). -/
theorem c8_nearest_upper_edge_witness :
    tableC8.effective_area_at_energy ⟨19 / 10, .TeV⟩ = .ok ⟨10, Uname.m2⟩ ∧
    (∃ i, i < tableC8.energy_hi.values.length ∧
      tableC8.effective_area_at_energy ⟨19 / 10, .TeV⟩ =
        .ok ⟨tableC8.effective_area.values.getD i 0, tableC8.effective_area.unit⟩ ∧
      ∀ j < tableC8.energy_hi.values.length,
        |tableC8.energy_hi.values.getD i 0 -
            (19 / 10 : ℝ) * (Uname.TeV.factor / tableC8.energy_hi.unit.factor)| ≤
          |tableC8.energy_hi.values.getD j 0 -
            (19 / 10 : ℝ) * (Uname.TeV.factor / tableC8.energy_hi.unit.factor)|) := by
  have hargmin : argminList (tableC8.energy_hi.values.map
      (fun h => |h - (19 / 10 : ℝ) * (Uname.TeV.factor / tableC8.energy_hi.unit.factor)|)) = 0 := by
    have hv : tableC8.energy_hi.values.map
        (fun h => |h - (19 / 10 : ℝ) * (Uname.TeV.factor / tableC8.energy_hi.unit.factor)|) =
        [|(2 : ℝ) - 19 / 10 * (1 / 1)|, |(4 : ℝ) - 19 / 10 * (1 / 1)|] := rfl
    rw [hv, argminList, argminList]
    rw [if_pos ?_]
    rw [List.getD_cons_zero]
    rw [show |(2 : ℝ) - 19 / 10 * (1 / 1)| = 1 / 10 by rw [abs_of_nonneg] <;> norm_num]
    rw [show |(4 : ℝ) - 19 / 10 * (1 / 1)| = 21 / 10 by rw [abs_of_nonneg] <;> norm_num]
    norm_num
  constructor
  · show (match tableC8.effective_area.values[argminList (tableC8.energy_hi.values.map
        (fun h => |h - (19 / 10 : ℝ) * (Uname.TeV.factor / tableC8.energy_hi.unit.factor)|))]? with
      | some a => Except.ok (⟨a, tableC8.effective_area.unit⟩ : Quantity)
      | none => Except.error Err.valueError) = Except.ok ⟨10, Uname.m2⟩
    rw [hargmin]
    rfl
  · exact c8_nearest_upper_edge tableC8 ⟨19 / 10, .TeV⟩ rfl (by simp [tableC8]) rfl

/-- Inversion of a successful `OffsetDependentTableEffectiveArea.make`:
every field of the resulting table. -/
theorem aeff2D_make_ok_inv (energ_lo energ_hi offset_lo offset_hi : QArray)
    (eff_area eff_area_reco : QMatrix) (t : OffsetDependentTableEffectiveArea)
    (hmk : OffsetDependentTableEffectiveArea.make energ_lo energ_hi offset_lo offset_hi
      eff_area eff_area_reco = .ok t) :
    t = { energ_lo := energ_lo.toU .TeV
          energ_hi := energ_hi.toU .TeV
          offset_lo := offset_lo.toU .degree
          offset_hi := offset_hi.toU .degree
          eff_area := eff_area.toU .m2
          eff_area_reco := eff_area_reco.toU .m2
          offset := ⟨List.zipWith (fun a b => (a + b) / 2) offset_hi.values
            ((offset_lo.toU offset_hi.unit).values), offset_hi.unit⟩
          energy := ⟨List.zipWith (fun a b => Real.sqrt (a * b)) energ_lo.values
            energ_hi.values, energ_lo.unit⟩
          linear := prepare_linear_interpolator
            ⟨List.zipWith (fun a b => (a + b) / 2) offset_hi.values
              ((offset_lo.toU offset_hi.unit).values), offset_hi.unit⟩
            ⟨List.zipWith (fun a b => Real.sqrt (a * b)) energ_lo.values
              energ_hi.values, energ_lo.unit⟩ (eff_area.toU .m2)
          spline := prepare_spline_interpolator
            ⟨List.zipWith (fun a b => (a + b) / 2) offset_hi.values
              ((offset_lo.toU offset_hi.unit).values), offset_hi.unit⟩
            ⟨List.zipWith (fun a b => Real.sqrt (a * b)) energ_lo.values
              energ_hi.values, energ_lo.unit⟩ (eff_area.toU .m2)
          interpolation_method := "linear" } := by
  rw [OffsetDependentTableEffectiveArea.make] at hmk
  split_ifs at hmk
  simp only [Except.ok.injEq] at hmk
  exact hmk.symm

/-- C1: in the linear interpolator built at construction, the cross-product
point set is generated offset-major / energy-minor and the area matrix is
flattened in the same row-major order: for all indices (i, j), the
flattened value at position `i * n_energy + j` is `eff_area[i][j]` and its
point is `(offset_center_i, log10(energy_center_j))`. -/
theorem c1_linear_grid_pairing (energ_lo energ_hi offset_lo offset_hi : QArray)
    (eff_area eff_area_reco : QMatrix) (t : OffsetDependentTableEffectiveArea)
    (hmk : OffsetDependentTableEffectiveArea.make energ_lo energ_hi offset_lo offset_hi
      eff_area eff_area_reco = .ok t)
    (hrows : t.eff_area.rows.length = t.offset.values.length)
    (hrlen : ∀ r ∈ t.eff_area.rows, r.length = t.energy.values.length)
    (i j : ℕ) (hi : i < t.offset.values.length) (hj : j < t.energy.values.length) :
    t.linear.points[i * t.energy.values.length + j]? =
      some (t.offset.values.getD i 0, Real.logb 10 (t.energy.values.getD j 0)) ∧
    t.linear.values[i * t.energy.values.length + j]? =
      some ((t.eff_area.rows.getD i []).getD j 0) := by
  have hlinear : t.linear = prepare_linear_interpolator t.offset t.energy t.eff_area := by
    rw [aeff2D_make_ok_inv _ _ _ _ _ _ _ hmk]
  clear hmk
  set L := t.energy.values.length with hL
  have hypos : 0 < L := Nat.lt_of_le_of_lt (Nat.zero_le j) hj
  have hk : i * L + j < t.offset.values.length * L := by
    calc i * L + j < i * L + L := by omega
    _ = (i + 1) * L := by ring
    _ ≤ t.offset.values.length * L := Nat.mul_le_mul_right L hi
  have hdiv : (i * L + j) / L = i := by
    rw [Nat.add_comm, Nat.add_mul_div_right _ _ hypos, Nat.div_eq_of_lt hj, Nat.zero_add]
  have hmod : (i * L + j) % L = j := by
    rw [Nat.add_comm, Nat.add_mul_mod_self_right, Nat.mod_eq_of_lt hj]
  constructor
  · rw [hlinear, prepare_linear_interpolator]
    rw [coordGrid_getElem _ _ _ (by rwa [List.length_map])]
    rw [List.length_map, hdiv, hmod, getD_map_lt _ _ _ hj]
  · rw [hlinear, prepare_linear_interpolator]
    rw [flatten_getElem _ L _ hrlen (by rw [hrows]; exact hk)]
    rw [hdiv, hmod]

/-- Offset bin edges `[1,2]`-`[1,2]` degree (the radially-symmetric format
has `offset_lo == offset_hi`). -/
noncomputable def offInC : QArray := ⟨[1, 2], .degree⟩

/-- Energy bin edges `[1,100]`-`[1,100]` TeV, giving centers 1 and 100 TeV. -/
noncomputable def enInC : QArray := ⟨[1, 100], .TeV⟩

/-- A 2x2 area matrix in m^2. -/
noncomputable def areaInC : QMatrix := ⟨[[100, 200], [300, 400]], .m2⟩

/-- The table constructed from the canonical-unit 2x2 grid. -/
noncomputable def tableC : OffsetDependentTableEffectiveArea :=
  (OffsetDependentTableEffectiveArea.make enInC enInC offInC offInC
    areaInC areaInC).toOption.getD trivialTable

/-- Uniform row length of the concrete table's area matrix. -/
theorem tableC_rlen : ∀ r ∈ tableC.eff_area.rows, r.length = tableC.energy.values.length := by
  intro r hr
  rcases List.mem_cons.mp hr with h | h
  · subst h; rfl
  · rcases List.mem_cons.mp h with h2 | h2
    · subst h2; rfl
    · exact absurd h2 (List.not_mem_nil r)

/-- Witness for C1 on the concrete 2x2 grid: position `1*2+1` of the
flattened values is `eff_area[1][1] = 400 m^2`, paired with
`(offset_center_1, log10(energy_center_1))`. -/
theorem c1_linear_grid_pairing_witness :
    (tableC.linear.points[1 * tableC.energy.values.length + 1]? =
      some (tableC.offset.values.getD 1 0, Real.logb 10 (tableC.energy.values.getD 1 0)) ∧
     tableC.linear.values[1 * tableC.energy.values.length + 1]? =
      some ((tableC.eff_area.rows.getD 1 []).getD 1 0)) ∧
    tableC.linear.values[3]? = some 400 := by
  refine ⟨c1_linear_grid_pairing enInC enInC offInC offInC areaInC areaInC tableC rfl rfl
    tableC_rlen 1 1 (by show (1 : ℕ) < 2; norm_num) (by show (1 : ℕ) < 2; norm_num), ?_⟩
  show some ((400 : ℝ) * (Uname.m2.factor / Uname.m2.factor)) = some 400
  norm_num [Uname.factor]

/-- Every conversion factor is positive. -/
theorem Uname.factor_pos (u : Uname) : 0 < u.factor := by
  cases u
  all_goals first
    | exact div_pos (by norm_num) Real.pi_pos
    | norm_num [Uname.factor]

/-- `getD` through `zipWith`, inside the range. -/
theorem getD_zipWith_lt (f : ℝ → ℝ → ℝ) (a b : List ℝ) (k : ℕ)
    (hka : k < a.length) (hkb : k < b.length) :
    (List.zipWith f a b).getD k 0 = f (a.getD k 0) (b.getD k 0) := by
  induction a generalizing b k with
  | nil => simp at hka
  | cons x a ih =>
    cases b with
    | nil => simp at hkb
    | cons y b =>
      cases k with
      | zero => rfl
      | succ k =>
        simp only [List.zipWith_cons_cons, List.getD_cons_succ]
        exact ih b k (by simpa using hka) (by simpa using hkb)

/-- C4 (amended): for every valid unit-tagged input, construction succeeds
and the six explicitly converted attributes are in canonical units (TeV,
degree, m^2); the derived bin centers satisfy
`offset_center = (offset_hi+offset_lo)/2` and
`energy_center = sqrt(energ_lo*energ_hi)` as physical quantities — but the
center attributes are stored in the units of the raw constructor arguments
(`offset_hi`'s resp. `energ_lo`'s unit), because lines 376-377 use the
unconverted local variables, so they are NOT canonicalized. -/
theorem c4_construction_units (energ_lo energ_hi offset_lo offset_hi : QArray)
    (eff_area eff_area_reco : QMatrix)
    (h1 : offset_lo.unit.dim = PhysDim.angle) (h2 : offset_hi.unit.dim = PhysDim.angle)
    (h3 : energ_lo.unit.dim = PhysDim.energy) (h4 : energ_hi.unit.dim = PhysDim.energy)
    (h5 : eff_area.unit.dim = PhysDim.area) (h6 : eff_area_reco.unit.dim = PhysDim.area)
    (h7 : energ_lo.unit = energ_hi.unit)
    (hol : offset_lo.values.length = offset_hi.values.length) :
    ∃ t, OffsetDependentTableEffectiveArea.make energ_lo energ_hi offset_lo offset_hi
        eff_area eff_area_reco = .ok t ∧
      t.energ_lo.unit = .TeV ∧ t.energ_hi.unit = .TeV ∧
      t.offset_lo.unit = .degree ∧ t.offset_hi.unit = .degree ∧
      t.eff_area.unit = .m2 ∧ t.eff_area_reco.unit = .m2 ∧
      t.offset.unit = offset_hi.unit ∧ t.energy.unit = energ_lo.unit ∧
      (∀ k < offset_hi.values.length,
        t.offset.values.getD k 0 * t.offset.unit.factor =
          (offset_hi.values.getD k 0 * offset_hi.unit.factor +
            offset_lo.values.getD k 0 * offset_lo.unit.factor) / 2) ∧
      (∀ k, k < energ_lo.values.length → k < energ_hi.values.length →
        t.energy.values.getD k 0 * t.energy.unit.factor =
          Real.sqrt ((energ_lo.values.getD k 0 * energ_lo.unit.factor) *
            (energ_hi.values.getD k 0 * energ_hi.unit.factor))) := by
  have hmk : ∃ t, OffsetDependentTableEffectiveArea.make energ_lo energ_hi offset_lo
      offset_hi eff_area eff_area_reco = .ok t := by
    rw [OffsetDependentTableEffectiveArea.make, if_pos ⟨h1, h2⟩,
      if_pos ⟨h3, h4, h5, h6⟩, if_pos h7]
    exact ⟨_, rfl⟩
  obtain ⟨t, ht⟩ := hmk
  have hteq := aeff2D_make_ok_inv _ _ _ _ _ _ _ ht
  subst hteq
  refine ⟨_, ht, rfl, rfl, rfl, rfl, rfl, rfl, rfl, rfl, ?off, ?en⟩
  case off =>
    intro k hk
    rw [getD_zipWith_lt _ _ _ _ hk
      (by rw [QArray.toU, List.length_map, hol]; exact hk)]
    rw [QArray.toU]
    rw [getD_map_lt _ _ _ (by rw [hol]; exact hk)]
    have hfh : (0 : ℝ) < offset_hi.unit.factor := Uname.factor_pos _
    field_simp
    ring
  case en =>
    intro k hk1 hk2
    rw [getD_zipWith_lt _ _ _ _ hk1 hk2]
    rw [h7]
    rw [show energ_lo.values.getD k 0 * energ_hi.unit.factor *
        (energ_hi.values.getD k 0 * energ_hi.unit.factor) =
        energ_hi.unit.factor ^ 2 * (energ_lo.values.getD k 0 * energ_hi.values.getD k 0)
        from by ring]
    rw [Real.sqrt_mul (show (0 : ℝ) ≤ energ_hi.unit.factor ^ 2 by positivity)
      (energ_lo.values.getD k 0 * energ_hi.values.getD k 0),
      Real.sqrt_sq (Uname.factor_pos _).le]
    ring

/-- Counterexample to C4 as stated: constructing from offsets in radian and
energies in GeV succeeds, but the stored derived-bin-center attributes keep
those input units — `offset` is in radian, not degree, and `energy` is in
GeV, not TeV — so not every stored unit-tagged attribute is canonical. -/
theorem c4_counterexample :
    ∃ t, OffsetDependentTableEffectiveArea.make ⟨[1, 100], .GeV⟩ ⟨[1, 100], .GeV⟩
        ⟨[1, 2], .radian⟩ ⟨[1, 2], .radian⟩ areaInC areaInC = .ok t ∧
      t.offset.unit = Uname.radian ∧ t.energy.unit = Uname.GeV ∧
      Uname.radian ≠ Uname.degree ∧ Uname.GeV ≠ Uname.TeV :=
  ⟨_, rfl, rfl, rfl, by decide, by decide⟩

/-- Witness for the amended C4 at the radian/GeV input: construction
succeeds, the six converted attributes are canonical, and the centers are
the physical midpoint / geometric mean while stored in radian / GeV. -/
theorem c4_construction_units_witness :
    ∃ t, OffsetDependentTableEffectiveArea.make ⟨[1, 100], .GeV⟩ ⟨[1, 100], .GeV⟩
        ⟨[1, 2], .radian⟩ ⟨[1, 2], .radian⟩ areaInC areaInC = .ok t ∧
      t.energ_lo.unit = .TeV ∧ t.energ_hi.unit = .TeV ∧
      t.offset_lo.unit = .degree ∧ t.offset_hi.unit = .degree ∧
      t.eff_area.unit = .m2 ∧ t.eff_area_reco.unit = .m2 ∧
      t.offset.unit = (⟨[1, 2], .radian⟩ : QArray).unit ∧
      t.energy.unit = (⟨[1, 100], .GeV⟩ : QArray).unit ∧
      (∀ k < (⟨[1, 2], .radian⟩ : QArray).values.length,
        t.offset.values.getD k 0 * t.offset.unit.factor =
          ((⟨[1, 2], .radian⟩ : QArray).values.getD k 0 * Uname.radian.factor +
            (⟨[1, 2], .radian⟩ : QArray).values.getD k 0 * Uname.radian.factor) / 2) ∧
      (∀ k, k < (⟨[1, 100], .GeV⟩ : QArray).values.length →
        k < (⟨[1, 100], .GeV⟩ : QArray).values.length →
        t.energy.values.getD k 0 * t.energy.unit.factor =
          Real.sqrt (((⟨[1, 100], .GeV⟩ : QArray).values.getD k 0 * Uname.GeV.factor) *
            ((⟨[1, 100], .GeV⟩ : QArray).values.getD k 0 * Uname.GeV.factor))) :=
  c4_construction_units ⟨[1, 100], .GeV⟩ ⟨[1, 100], .GeV⟩ ⟨[1, 2], .radian⟩
    ⟨[1, 2], .radian⟩ areaInC areaInC rfl rfl rfl rfl rfl rfl rfl rfl

/-- Strictly sorted lists are strictly increasing in `getD`. -/
theorem pairwise_lt_getD (l : List ℝ) (hl : l.Pairwise (· < ·)) (a b : ℕ)
    (hab : a < b) (hb : b < l.length) : l.getD a 0 < l.getD b 0 := by
  have ha : a < l.length := lt_trans hab hb
  have := List.pairwise_iff_get.mp hl ⟨a, ha⟩ ⟨b, hb⟩ hab
  simpa [List.getD_eq_getElem?_getD, List.getElem?_eq_getElem, ha, hb,
    List.get_eq_getElem] using this

/-- Length of the cross-product coordinate list. -/
theorem coordGrid_length (x y : List ℝ) : (coordGrid x y).length = x.length * y.length := by
  induction x with
  | nil => simp [coordGrid]
  | cons a x ih =>
    simp only [coordGrid, List.flatMap_cons, List.length_append, List.length_map,
      List.length_cons] at ih ⊢
    rw [ih]
    ring

/-- Length of the row-major flattening of a uniform matrix. -/
theorem flatten_length_uniform (m : List (List ℝ)) (L : ℕ) (hL : ∀ r ∈ m, r.length = L) :
    m.flatten.length = m.length * L := by
  induction m with
  | nil => simp
  | cons r m ih =>
    simp only [List.flatten_cons, List.length_append, List.length_cons]
    rw [hL r (List.mem_cons_self _ _), ih (fun s hs => hL s (List.mem_cons_of_mem _ hs))]
    ring

/-- An in-range `getD` is a member of the list. -/
theorem getD_mem_of_lt (l : List ℝ) (k : ℕ) (hk : k < l.length) : l.getD k 0 ∈ l := by
  rw [List.getD_eq_getElem?_getD, List.getElem?_eq_getElem hk]
  simp only [Option.getD_some]
  exact List.getElem_mem hk

/-- The linear interpolator built by `_prepare_linear_interpolator` is exact
at grid nodes: querying at `(offset_center_i, log10(energy_center_j))`
returns the stored `eff_area[i][j]`, provided the centers are strictly
increasing and the energy centers positive (any strictly monotone bin grid
gives this). -/
theorem linear_eval_at_node (offset energy : QArray) (eff_area : QMatrix)
    (hrows : eff_area.rows.length = offset.values.length)
    (hrlen : ∀ r ∈ eff_area.rows, r.length = energy.values.length)
    (hx : offset.values.Pairwise (· < ·))
    (hy : energy.values.Pairwise (· < ·))
    (hypos : ∀ v ∈ energy.values, 0 < v)
    (i j : ℕ) (hi : i < offset.values.length) (hj : j < energy.values.length) :
    (prepare_linear_interpolator offset energy eff_area).eval
      (offset.values.getD i 0, Real.logb 10 (energy.values.getD j 0)) =
      some ((eff_area.rows.getD i []).getD j 0) := by
  set L := energy.values.length with hLdef
  have hL0 : 0 < L := Nat.lt_of_le_of_lt (Nat.zero_le j) hj
  set x := offset.values with hxdef
  set y := energy.values.map (fun v => Real.logb 10 v) with hydef
  have hyL : y.length = L := by rw [hydef, List.length_map]
  set q : ℝ × ℝ := (offset.values.getD i 0, Real.logb 10 (energy.values.getD j 0)) with hqdef
  have hklt : i * L + j < x.length * y.length := by
    rw [hyL]
    calc i * L + j < i * L + L := by omega
    _ = (i + 1) * L := by ring
    _ ≤ x.length * L := Nat.mul_le_mul_right L hi
  have hn : (coordGrid x y)[i * L + j]? = some q := by
    rw [coordGrid_getElem _ _ _ hklt, hyL]
    rw [Nat.add_comm, Nat.add_mul_div_right _ _ hL0, Nat.div_eq_of_lt hj, Nat.zero_add,
      Nat.add_mul_mod_self_right, Nat.mod_eq_of_lt hj]
    rw [hydef, getD_map_lt _ _ _ hj]
  have hne : ∀ m, m < i * L + j → (coordGrid x y)[m]? ≠ some q := by
    intro m hm hcon
    have hmlt : m < x.length * y.length := lt_trans hm hklt
    rw [coordGrid_getElem _ _ _ hmlt, hyL, hqdef] at hcon
    simp only [Option.some.injEq, Prod.mk.injEq] at hcon
    obtain ⟨hcx, hcy⟩ := hcon
    have hdivle : m / L ≤ i := by
      have h1 : m < (i + 1) * L := by
        calc m < i * L + j := hm
        _ < i * L + L := by omega
        _ = (i + 1) * L := by ring
      have h2 : m / L < i + 1 := (Nat.div_lt_iff_lt_mul hL0).mpr
        (by rw [Nat.mul_comm] at h1 ⊢; exact h1)
      omega
    rcases Nat.lt_or_ge (m / L) i with hlt | hge
    · exact absurd hcx (ne_of_lt (pairwise_lt_getD x hx _ _ hlt hi))
    · have hdiv : m / L = i := le_antisymm hdivle hge
      have hmodlt : m % L < j := by
        have hrec : L * (m / L) + m % L = m := Nat.div_add_mod m L
        rw [hdiv] at hrec
        have hm2 : m < L * i + j := by rw [Nat.mul_comm L i]; exact hm
        omega
      rw [hydef, getD_map_lt _ _ _ (lt_trans hmodlt hj)] at hcy
      exact absurd hcy (ne_of_lt (Real.logb_lt_logb (by norm_num)
        (hypos _ (getD_mem_of_lt _ _ (lt_trans hmodlt hj)))
        (pairwise_lt_getD energy.values hy _ _ hmodlt hj)))
  have hlen2 : (coordGrid x y).length = (eff_area.rows.flatten).length := by
    rw [coordGrid_length, flatten_length_uniform _ L hrlen, hrows, hyL]
  have hvals : (eff_area.rows.flatten)[i * L + j]? =
      some ((eff_area.rows.getD i []).getD j 0) := by
    rw [flatten_getElem _ L _ hrlen (by rw [hrows]; rw [hyL] at hklt; exact hklt)]
    rw [Nat.add_comm, Nat.add_mul_div_right _ _ hL0, Nat.div_eq_of_lt hj, Nat.zero_add,
      Nat.add_mul_mod_self_right, Nat.mod_eq_of_lt hj]
  have hpts : (prepare_linear_interpolator offset energy eff_area).points = coordGrid x y := rfl
  have hvs : (prepare_linear_interpolator offset energy eff_area).values =
    eff_area.rows.flatten := rfl
  rw [LinearND.eval, hpts, hvs]
  rw [lookupPoint_zip _ _ _ _ hlen2 hn hne, hvals]

/-- `evaluate` with the linear method on scalar queries: convert units, take
log10 of the energy, query the linear interpolator pointwise, re-tag with
the stored area unit. -/
theorem evaluate_scalar_linear (t : OffsetDependentTableEffectiveArea)
    (ou eu : Uname) (a b : ℝ)
    (hou : ou.dim = PhysDim.angle) (heu : eu.dim = PhysDim.energy)
    (hmeth : t.interpolation_method = "linear") :
    t.evaluate ⟨.scalar a, ou⟩ ⟨.scalar b, eu⟩ =
      .ok ⟨.scalar (t.linear.eval (a * (ou.factor / Uname.degree.factor),
        Real.logb 10 (b * (eu.factor / Uname.TeV.factor)))), t.eff_area.unit⟩ := by
  rw [OffsetDependentTableEffectiveArea.evaluate, if_pos hou, if_pos heu, if_pos hmeth]
  rfl

/-- `evaluate` with the spline method on scalar queries: the grid evaluation
on the two singleton coordinate arrays is squeezed back to a scalar. -/
theorem evaluate_scalar_spline (t : OffsetDependentTableEffectiveArea)
    (ou eu : Uname) (a b : ℝ)
    (hou : ou.dim = PhysDim.angle) (heu : eu.dim = PhysDim.energy)
    (hmeth : t.interpolation_method = "spline") :
    t.evaluate ⟨.scalar a, ou⟩ ⟨.scalar b, eu⟩ =
      .ok ⟨.scalar (some (t.spline.eval (a * (ou.factor / Uname.degree.factor))
        (Real.logb 10 (b * (eu.factor / Uname.TeV.factor))))), t.eff_area.unit⟩ := by
  rw [OffsetDependentTableEffectiveArea.evaluate, if_pos hou, if_pos heu,
    if_neg (by simp [hmeth]), if_pos hmeth]
  rfl

/-- `lookupPoint` misses when no sample point equals the query. -/
theorem lookupPoint_none (l : List ((ℝ × ℝ) × ℝ)) (q : ℝ × ℝ)
    (h : ∀ pv ∈ l, pv.1 ≠ q) : lookupPoint l q = none := by
  induction l with
  | nil => rfl
  | cons pv rest ih =>
    rw [show lookupPoint (pv :: rest) q = (if pv.1 = q then some pv.2 else lookupPoint rest q)
      from rfl]
    rw [if_neg (h pv (List.mem_cons_self _ _)),
      ih (fun x hx => h x (List.mem_cons_of_mem _ hx))]

/-- A query outside the convex hull of the sample points evaluates to the
NaN sentinel `none`. -/
theorem linear_eval_none_of_not_hull (L : LinearND) (q : ℝ × ℝ)
    (h : q ∉ convexHull ℝ {p | p ∈ L.points}) : L.eval q = none := by
  have h1 : lookupPoint (L.points.zip L.values) q = none := by
    refine lookupPoint_none _ _ (fun pv hpv hc => h ?_)
    refine subset_convexHull ℝ _ ?_
    rw [← hc]
    exact (List.of_mem_zip hpv).1
  rw [LinearND.eval, h1]
  show (if q ∈ convexHull ℝ {p | p ∈ L.points} then
    some (nearestPV q (L.points.zip L.values) ((0, 0), 0)) else none) = none
  rw [if_neg h]

/-- The half-plane `x ≤ c` is convex. -/
theorem convex_fst_le (c : ℝ) : Convex ℝ {p : ℝ × ℝ | p.1 ≤ c} := by
  intro p hp q hq a b ha hb hab
  simp only [Set.mem_setOf_eq] at hp hq ⊢
  have hfst : (a • p + b • q).1 = a * p.1 + b * q.1 := rfl
  rw [hfst]
  calc a * p.1 + b * q.1 ≤ a * c + b * c := by
        exact add_le_add (mul_le_mul_of_nonneg_left hp ha) (mul_le_mul_of_nonneg_left hq hb)
  _ = c := by rw [← add_mul, hab, one_mul]

/-- A point strictly to the right of every sample point lies outside the
convex hull. -/
theorem not_mem_hull_of_fst_gt (pts : List (ℝ × ℝ)) (c : ℝ) (q : ℝ × ℝ)
    (hall : ∀ p ∈ pts, p.1 ≤ c) (hq : c < q.1) :
    q ∉ convexHull ℝ {p : ℝ × ℝ | p ∈ pts} := by
  intro hmem
  have hsub : convexHull ℝ {p : ℝ × ℝ | p ∈ pts} ⊆ {p : ℝ × ℝ | p.1 ≤ c} :=
    convexHull_min (fun p hp => hall p hp) (convex_fst_le c)
  exact absurd (hsub hmem) (not_le.mpr hq)

/-- C2 (amended): for every table built from a valid grid given in the
CANONICAL units (offsets in degree, energies in TeV) with strictly
increasing centers, evaluating with the default linear method at each grid
node `(offset_center_i, energy_center_j)` returns exactly the stored
calibration value `eff_area[i][j]`, tagged with the stored area unit.
(As universally stated the claim fails: for inputs in non-canonical units
the centers — and hence the interpolator's points — are built from raw
input values while `evaluate` converts every query to degree/TeV, so the
node query misses the point set; see the counterexample.) -/
theorem c2_linear_round_trip (energ_lo energ_hi offset_lo offset_hi : QArray)
    (eff_area eff_area_reco : QMatrix) (t : OffsetDependentTableEffectiveArea)
    (hmk : OffsetDependentTableEffectiveArea.make energ_lo energ_hi offset_lo offset_hi
      eff_area eff_area_reco = .ok t)
    (hu2 : offset_hi.unit = Uname.degree) (hu3 : energ_lo.unit = Uname.TeV)
    (hrows : t.eff_area.rows.length = t.offset.values.length)
    (hrlen : ∀ r ∈ t.eff_area.rows, r.length = t.energy.values.length)
    (hx : t.offset.values.Pairwise (· < ·))
    (hy : t.energy.values.Pairwise (· < ·))
    (hypos : ∀ v ∈ t.energy.values, 0 < v)
    (i j : ℕ) (hi : i < t.offset.values.length) (hj : j < t.energy.values.length) :
    t.evaluate ⟨.scalar (t.offset.values.getD i 0), .degree⟩
        ⟨.scalar (t.energy.values.getD j 0), .TeV⟩ =
      .ok ⟨.scalar (some ((t.eff_area.rows.getD i []).getD j 0)), t.eff_area.unit⟩ := by
  have hteq := aeff2D_make_ok_inv _ _ _ _ _ _ _ hmk
  have hlin : t.linear = prepare_linear_interpolator t.offset t.energy t.eff_area := by
    rw [hteq]
  have hmeth : t.interpolation_method = "linear" := by rw [hteq]
  rw [evaluate_scalar_linear t .degree .TeV _ _ rfl rfl hmeth]
  rw [show t.offset.values.getD i 0 * (Uname.degree.factor / Uname.degree.factor) =
    t.offset.values.getD i 0 from by norm_num [Uname.factor]]
  rw [show t.energy.values.getD j 0 * (Uname.TeV.factor / Uname.TeV.factor) =
    t.energy.values.getD j 0 from by norm_num [Uname.factor]]
  rw [hlin, linear_eval_at_node t.offset t.energy t.eff_area hrows hrlen hx hy hypos i j hi hj]

/-- The same 2x2 grid as `tableC` but with the offsets given in radian. -/
noncomputable def offInR : QArray := ⟨[1, 2], .radian⟩

/-- The table built from the radian-offset grid. -/
noncomputable def tableR : OffsetDependentTableEffectiveArea :=
  (OffsetDependentTableEffectiveArea.make enInC enInC offInR offInR
    areaInC areaInC).toOption.getD trivialTable

/-- Counterexample to C2 as stated: on the table built from a valid grid
whose offsets are given in RADIAN, evaluating at the exact grid node
`(offset_center_0, energy_center_0)` — offset 1 radian, energy 1 TeV — does
NOT return the stored `eff_area[0][0] = 100` m^2: `evaluate` converts the
query to degrees (180/π > 57), which misses every interpolator point (their
offset coordinates are the raw radian values 1 and 2) and falls outside
the convex hull, so the linear interpolator returns the NaN sentinel. -/
theorem c2_counterexample :
    tableR.offset.values.getD 0 0 = 1 ∧
    tableR.energy.values.getD 0 0 = 1 ∧
    (tableR.eff_area.rows.getD 0 []).getD 0 0 = 100 ∧
    tableR.evaluate ⟨.scalar (tableR.offset.values.getD 0 0), .radian⟩
        ⟨.scalar (tableR.energy.values.getD 0 0), .TeV⟩ =
      .ok ⟨.scalar none, Uname.m2⟩ ∧
    some ((tableR.eff_area.rows.getD 0 []).getD 0 0) ≠ (none : Option ℝ) := by
  have hfr : Uname.radian.factor ≠ 0 := (Uname.factor_pos _).ne'
  have hc1 : tableR.offset.values.getD 0 0 = 1 := by
    show (1 + 1 * (Uname.radian.factor / Uname.radian.factor)) / 2 = 1
    rw [div_self hfr]
    norm_num
  have hc2 : tableR.energy.values.getD 0 0 = 1 := by
    show Real.sqrt (1 * 1) = 1
    rw [one_mul, Real.sqrt_one]
  have hpi_lt : (2 : ℝ) < 180 / Real.pi := by
    rw [lt_div_iff Real.pi_pos]
    nlinarith [Real.pi_lt_315]
  have hc3 : (tableR.eff_area.rows.getD 0 []).getD 0 0 = 100 := by
    show (100 : ℝ) * (Uname.m2.factor / Uname.m2.factor) = 100
    norm_num [Uname.factor]
  refine ⟨hc1, hc2, hc3, ?_, by simp⟩
  rw [evaluate_scalar_linear tableR .radian .TeV _ _ rfl rfl rfl]
  rw [hc1]
  rw [show (1 : ℝ) * (Uname.radian.factor / Uname.degree.factor) = 180 / Real.pi from by
    norm_num [Uname.factor]]
  rw [linear_eval_none_of_not_hull _ _ (not_mem_hull_of_fst_gt _ 2 _ ?hall hpi_lt)]
  · rfl
  case hall =>
    intro p hp
    have hfacts : (1 + 1 * (Uname.radian.factor / Uname.radian.factor)) / 2 ≤ (2 : ℝ) ∧
        (2 + 2 * (Uname.radian.factor / Uname.radian.factor)) / 2 ≤ (2 : ℝ) := by
      rw [div_self hfr]
      norm_num
    rcases List.mem_cons.mp hp with h | h
    · rw [h]; exact hfacts.1
    rcases List.mem_cons.mp h with h2 | h2
    · rw [h2]; exact hfacts.1
    rcases List.mem_cons.mp h2 with h3 | h3
    · rw [h3]; exact hfacts.2
    rcases List.mem_cons.mp h3 with h4 | h4
    · rw [h4]; exact hfacts.2
    exact absurd h4 (List.not_mem_nil p)

/-- The offset centers of the canonical concrete table are strictly
increasing. -/
theorem tableC_offsets_sorted : tableC.offset.values.Pairwise (· < ·) := by
  show List.Pairwise (· < ·) [(1 + 1 * (Uname.degree.factor / Uname.degree.factor)) / 2,
    (2 + 2 * (Uname.degree.factor / Uname.degree.factor)) / 2]
  refine List.pairwise_cons.mpr ⟨?_, List.pairwise_singleton _ _⟩
  intro b hb
  rw [List.mem_singleton.mp hb]
  norm_num [Uname.factor]

/-- The energy centers of the canonical concrete table are strictly
increasing. -/
theorem tableC_energies_sorted : tableC.energy.values.Pairwise (· < ·) := by
  show List.Pairwise (· < ·) [Real.sqrt (1 * 1), Real.sqrt (100 * 100)]
  rw [show (1 : ℝ) * 1 = 1 from by norm_num, Real.sqrt_one,
    show (100 : ℝ) * 100 = 100 ^ 2 from by norm_num,
    Real.sqrt_sq (by norm_num : (0 : ℝ) ≤ 100)]
  refine List.pairwise_cons.mpr ⟨?_, List.pairwise_singleton _ _⟩
  intro b hb
  rw [List.mem_singleton.mp hb]
  norm_num

/-- The energy centers of the canonical concrete table are positive. -/
theorem tableC_energies_pos : ∀ v ∈ tableC.energy.values, 0 < v := by
  intro v hv
  have hv' : v ∈ [Real.sqrt (1 * 1), Real.sqrt (100 * 100)] := hv
  rcases List.mem_cons.mp hv' with h | h
  · rw [h]; exact Real.sqrt_pos.mpr (by norm_num)
  · rw [List.mem_singleton.mp h]; exact Real.sqrt_pos.mpr (by norm_num)

/-- Witness for the amended C2 on the concrete canonical 2x2 grid: the
grid node (offset_center_1, energy_center_1) = (2 degree, 100 TeV)
round-trips to the stored eff_area[1][1] = 400 m^2. -/
theorem c2_linear_round_trip_witness :
    tableC.offset.values.getD 1 0 = 2 ∧
    tableC.energy.values.getD 1 0 = 100 ∧
    (tableC.eff_area.rows.getD 1 []).getD 1 0 = 400 ∧
    tableC.evaluate ⟨.scalar (tableC.offset.values.getD 1 0), .degree⟩
        ⟨.scalar (tableC.energy.values.getD 1 0), .TeV⟩ =
      .ok ⟨.scalar (some ((tableC.eff_area.rows.getD 1 []).getD 1 0)), tableC.eff_area.unit⟩ := by
  refine ⟨?_, ?_, ?_, ?_⟩
  · show (2 + 2 * (Uname.degree.factor / Uname.degree.factor)) / 2 = 2
    norm_num [Uname.factor]
  · show Real.sqrt (100 * 100) = 100
    rw [show (100 : ℝ) * 100 = 100 ^ 2 from by norm_num,
      Real.sqrt_sq (by norm_num : (0 : ℝ) ≤ 100)]
  · show (400 : ℝ) * (Uname.m2.factor / Uname.m2.factor) = 400
    norm_num [Uname.factor]
  · exact c2_linear_round_trip enInC enInC offInC offInC areaInC areaInC tableC rfl rfl rfl
      rfl tableC_rlen tableC_offsets_sorted tableC_energies_sorted tableC_energies_pos 1 1
      (by show (1 : ℕ) < 2; norm_num) (by show (1 : ℕ) < 2; norm_num)

/-- C5: a query point outside the convex hull of the linear interpolator's
triangulated point set evaluates, under the linear method, to the
NaN-equivalent undefined sentinel as data (`none` — not an exception, and
not a clamped boundary value), while the spline method at the very same
point returns a defined extrapolated value. -/
theorem c5_out_of_hull (t : OffsetDependentTableEffectiveArea) (ou eu : Uname) (a b : ℝ)
    (hou : ou.dim = PhysDim.angle) (heu : eu.dim = PhysDim.energy)
    (hout : (a * (ou.factor / Uname.degree.factor),
        Real.logb 10 (b * (eu.factor / Uname.TeV.factor))) ∉
      convexHull ℝ {p | p ∈ t.linear.points}) :
    ({t with interpolation_method := "linear"} :
        OffsetDependentTableEffectiveArea).evaluate ⟨.scalar a, ou⟩ ⟨.scalar b, eu⟩ =
      .ok ⟨.scalar none, t.eff_area.unit⟩ ∧
    ∃ r : ℝ, ({t with interpolation_method := "spline"} :
        OffsetDependentTableEffectiveArea).evaluate ⟨.scalar a, ou⟩ ⟨.scalar b, eu⟩ =
      .ok ⟨.scalar (some r), t.eff_area.unit⟩ := by
  constructor
  · rw [evaluate_scalar_linear _ _ _ _ _ hou heu rfl]
    rw [linear_eval_none_of_not_hull _ _ hout]
  · exact ⟨_, evaluate_scalar_spline _ _ _ _ _ hou heu rfl⟩

/-- Witness for C5: on the concrete canonical table, the query
(5 degree, 1 TeV) lies outside the hull (all offset coordinates are at
most 2): the linear method yields the sentinel, the spline a value. -/
theorem c5_out_of_hull_witness :
    ({tableC with interpolation_method := "linear"} :
        OffsetDependentTableEffectiveArea).evaluate ⟨.scalar 5, .degree⟩ ⟨.scalar 1, .TeV⟩ =
      .ok ⟨.scalar none, tableC.eff_area.unit⟩ ∧
    ∃ r : ℝ, ({tableC with interpolation_method := "spline"} :
        OffsetDependentTableEffectiveArea).evaluate ⟨.scalar 5, .degree⟩ ⟨.scalar 1, .TeV⟩ =
      .ok ⟨.scalar (some r), tableC.eff_area.unit⟩ := by
  refine c5_out_of_hull tableC .degree .TeV 5 1 rfl rfl ?_
  refine not_mem_hull_of_fst_gt _ 2 _ ?_ (by norm_num [Uname.factor])
  intro p hp
  have hfacts : (1 + 1 * (Uname.degree.factor / Uname.degree.factor)) / 2 ≤ (2 : ℝ) ∧
      (2 + 2 * (Uname.degree.factor / Uname.degree.factor)) / 2 ≤ (2 : ℝ) := by
    norm_num [Uname.factor]
  rcases List.mem_cons.mp hp with h | h
  · rw [h]; exact hfacts.1
  rcases List.mem_cons.mp h with h2 | h2
  · rw [h2]; exact hfacts.1
  rcases List.mem_cons.mp h2 with h3 | h3
  · rw [h3]; exact hfacts.2
  rcases List.mem_cons.mp h3 with h4 | h4
  · rw [h4]; exact hfacts.2
  exact absurd h4 (List.not_mem_nil p)

/-- `getD` through `zipWith` (any element types), inside the range. -/
theorem getD_zipWith_poly {α β γ : Type} (f : α → β → γ) (a : List α) (b : List β)
    (k : ℕ) (da : α) (db : β) (dc : γ) (hka : k < a.length) (hkb : k < b.length) :
    (List.zipWith f a b).getD k dc = f (a.getD k da) (b.getD k db) := by
  induction a generalizing b k with
  | nil => simp at hka
  | cons x a ih =>
    cases b with
    | nil => simp at hkb
    | cons y b =>
      cases k with
      | zero => rfl
      | succ k =>
        simp only [List.zipWith_cons_cons, List.getD_cons_succ]
        exact ih b k (by simpa using hka) (by simpa using hkb)

/-- `linearBroadcast` on two equal-length coordinate vectors is the
pointwise zip. -/
theorem linearBroadcast_vector (L : LinearND) (xs ys : List ℝ) (h : xs.length = ys.length) :
    linearBroadcast L (.vector xs) (.vector ys) =
      .ok (.vector (List.zipWith (fun a b => L.eval (a, b)) xs ys)) := by
  rw [linearBroadcast, if_pos h]

/-- `evaluate` with the linear method on two equal-length vector queries:
unit conversion and log10 are mapped over the coordinates and the
interpolator is applied pointwise over corresponding pairs. -/
theorem evaluate_vector_linear (t : OffsetDependentTableEffectiveArea)
    (ou eu : Uname) (os es : List ℝ)
    (hou : ou.dim = PhysDim.angle) (heu : eu.dim = PhysDim.energy)
    (hmeth : t.interpolation_method = "linear") (hlen : os.length = es.length) :
    t.evaluate ⟨.vector os, ou⟩ ⟨.vector es, eu⟩ =
      .ok ⟨.vector (List.zipWith (fun a b => t.linear.eval
        (a * (ou.factor / Uname.degree.factor),
          Real.logb 10 (b * (eu.factor / Uname.TeV.factor)))) os es), t.eff_area.unit⟩ := by
  rw [OffsetDependentTableEffectiveArea.evaluate, if_pos hou, if_pos heu, if_pos hmeth]
  show (match linearBroadcast t.linear
      (.vector (os.map (fun v => v * (ou.factor / Uname.degree.factor))))
      (.vector ((es.map (fun v => v * (eu.factor / Uname.TeV.factor))).map
        (fun v => Real.logb 10 v))) with
    | .ok r => Except.ok (⟨r, t.eff_area.unit⟩ : QResult)
    | .error e => Except.error e) = _
  rw [linearBroadcast_vector _ _ _ (by simp [hlen])]
  rw [List.map_map, List.zipWith_map]
  rfl

/-- C6 (amended): under the LINEAR (default) method, the result mirrors the
broadcast of the two query arguments: for two vectors of equal length n the
result is a vector of length n, tagged with the stored area unit, whose
k-th element is exactly the scalar `evaluate` at the corresponding pair
(offset_k, energy_k).  (Under the spline method this fails — the grid
evaluation returns an n x n matrix, see the counterexample.) -/
theorem c6_broadcast_shape (t : OffsetDependentTableEffectiveArea) (ou eu : Uname)
    (os es : List ℝ) (n : ℕ)
    (hou : ou.dim = PhysDim.angle) (heu : eu.dim = PhysDim.energy)
    (hmeth : t.interpolation_method = "linear")
    (h1 : os.length = n) (h2 : es.length = n) :
    ∃ vs : List (Option ℝ),
      t.evaluate ⟨.vector os, ou⟩ ⟨.vector es, eu⟩ = .ok ⟨.vector vs, t.eff_area.unit⟩ ∧
      vs.length = n ∧
      ∀ k < n, t.evaluate ⟨.scalar (os.getD k 0), ou⟩ ⟨.scalar (es.getD k 0), eu⟩ =
        .ok ⟨.scalar (vs.getD k none), t.eff_area.unit⟩ := by
  refine ⟨_, evaluate_vector_linear t ou eu os es hou heu hmeth (h1.trans h2.symm), ?_, ?_⟩
  · rw [List.length_zipWith]
    omega
  · intro k hk
    rw [evaluate_scalar_linear t ou eu _ _ hou heu hmeth]
    rw [getD_zipWith_poly _ _ _ _ (0 : ℝ) (0 : ℝ) none (by omega) (by omega)]

/-- The concrete canonical table switched to the spline method via
`set_interpolation_method`. -/
noncomputable def tableCspline : OffsetDependentTableEffectiveArea :=
  (tableC.set_interpolation_method "spline").toOption.getD trivialTable

/-- Counterexample to C6 as stated: under the SPLINE method, two
equal-length vector queries of length 2 do not produce a length-2 vector.
`RectBivariateSpline.__call__` evaluates on the grid (cross product) of the
two coordinate arrays, so the squeezed result is a 2 x 2 matrix. -/
theorem c6_counterexample :
    ∃ m, tableCspline.evaluate ⟨.vector [1, 2], .degree⟩ ⟨.vector [1, 100], .TeV⟩ =
        .ok ⟨.matrix m, Uname.m2⟩ ∧ m.length = 2 ∧
      ∀ vs : List (Option ℝ), (EvalResult.matrix m) ≠ (EvalResult.vector vs) :=
  ⟨_, rfl, rfl, fun vs h => EvalResult.noConfusion h⟩

/-- Witness for the amended C6 on the concrete canonical table with the
two length-2 query vectors (1,2) degree and (1,100) TeV under the default
linear method. -/
theorem c6_broadcast_shape_witness :
    ∃ vs : List (Option ℝ),
      tableC.evaluate ⟨.vector [1, 2], .degree⟩ ⟨.vector [1, 100], .TeV⟩ =
        .ok ⟨.vector vs, tableC.eff_area.unit⟩ ∧
      vs.length = 2 ∧
      ∀ k < 2, tableC.evaluate ⟨.scalar ([(1 : ℝ), 2].getD k 0), .degree⟩
          ⟨.scalar ([(1 : ℝ), 100].getD k 0), .TeV⟩ =
        .ok ⟨.scalar (vs.getD k none), tableC.eff_area.unit⟩ :=
  c6_broadcast_shape tableC .degree .TeV [1, 2] [1, 100] 2 rfl rfl rfl rfl rfl
